import Mathlib

/-!
Shallow embedding of the poker-hand state machine of `src/game.rs`
(`GameInfo`, `GameState`, action validation, the transition function and
the payout computation), followed by theorems settling the specification
claims about it.

Modelling conventions:

* `u32` values are modelled as `ℕ`.  The only subtraction the embedded
  code performs on `u32` is `r * 2 - max_spent` (see `recordAndChips`),
  modelled with truncated `ℕ` subtraction; the source relies on the raise
  invariant `min_no_limit_raise_to ≥ max_spent` to keep it nonnegative.
* `as i32` reinterpretation of a `u32` value is modelled exactly by
  `i32ofU32`.
* Rust panics (failed `assert!`, `unwrap` of `None`, integer division by
  zero) and source loops that can run forever are modelled by `Option`,
  with `none` for "no value is ever returned".
* Fixed-size arrays are modelled as total functions; the machine only
  ever consults indices below `numPlayers` / `numRounds` /
  the per-round action count.
* The hand-strength evaluator is external to this core: the code uses
  evaluation results only through the total order on `EvalClass`, whose
  minimum is `EvalClass::HighCard` at `Rank::Two`.  Rank classes are
  therefore modelled as `ℕ` with that minimum mapped to `0`, and the
  per-player evaluation of hole plus board cards is abstracted as a
  function `rankOf : ℕ → ℕ` fixed for the whole hand.
-/

namespace Ungar

/-- Maximum number of players supported by the fixed-size state arrays. -/
def MAX_PLAYERS : ℕ := 22

/-- Maximum number of betting rounds. -/
def MAX_ROUNDS : ℕ := 4

/-- Maximum number of actions recorded per round. -/
def MAX_NUM_ACTIONS : ℕ := 32

/-- Largest value of a `u32`. -/
def U32_MAX : ℕ := 2 ^ 32 - 1

/-- Reinterpretation of a `u32` value as an `i32` (Rust `as i32`). -/
def i32ofU32 (x : ℕ) : ℤ := if x < 2 ^ 31 then (x : ℤ) else (x : ℤ) - 2 ^ 32

/-- Betting types of a poker game. -/
inductive BettingType where
  | Limit
  | NoLimit
deriving DecidableEq

/-- Possible player actions; a raise carries the raise-to amount. -/
inductive Action where
  | fold
  | call
  | raise (r : ℕ)
deriving DecidableEq

/-- Rules and parameters of a poker game.  Per-player and per-round data,
stored as length-checked vectors in the source, are modelled as total
functions; entries past `numPlayers` / `numRounds` are never consulted by
the embedded operations.  The deck-configuration fields (`num_suits`,
`num_ranks`, `num_hole_cards`, `num_board_cards`) feed only the
card-dealing helpers, which are outside the embedded core. -/
structure GameInfo where
  startingStacks : ℕ → ℕ
  blinds : ℕ → ℕ
  raiseSizes : ℕ → ℕ
  bettingType : BettingType
  numPlayers : ℕ
  numRounds : ℕ
  maxRaises : ℕ → ℕ
  firstPlayer : ℕ → ℕ

/-- State of a poker hand (`GameState` in the source); the fixed-size
arrays are modelled as total functions. -/
structure GameState where
  handId : ℕ
  maxSpent : ℕ
  minNoLimitRaiseTo : ℕ
  spent : ℕ → ℕ
  stackPlayer : ℕ → ℕ
  sumRoundSpent : ℕ → ℕ → ℕ
  action : ℕ → ℕ → Option Action
  actingPlayer : ℕ → ℕ → ℕ
  activePlayer : ℕ
  numActions : ℕ → ℕ
  round : ℕ
  finished : Bool
  playersFolded : ℕ → Bool

/-- Folded computation of the largest blind among players `0..k` (the
`max_spent` initialisation loop of `GameState::new`). -/
def maxBlindUpTo (gi : GameInfo) : ℕ → ℕ
  | 0 => 0
  | k + 1 =>
    if gi.blinds k > maxBlindUpTo gi k then gi.blinds k else maxBlindUpTo gi k

/-- `GameState::new`: post the blinds, seat the first player, start round 0.
Seats at and above `numPlayers` keep the `players_folded` initialiser
`true` and zero chips, as in the source arrays. -/
def GameState.new (gi : GameInfo) (handId : ℕ) : GameState :=
  let maxSpent := maxBlindUpTo gi gi.numPlayers
  { handId := handId
    maxSpent := maxSpent
    minNoLimitRaiseTo :=
      match gi.bettingType with
      | .NoLimit => if maxSpent > 0 then maxSpent * 2 else 1
      | .Limit => 0
    spent := fun p => if p < gi.numPlayers then gi.blinds p else 0
    stackPlayer := fun p => if p < gi.numPlayers then gi.startingStacks p else 0
    sumRoundSpent := fun r p => if r = 0 ∧ p < gi.numPlayers then gi.blinds p else 0
    action := fun _ _ => none
    actingPlayer := fun _ _ => 0
    activePlayer := gi.firstPlayer 0
    numActions := fun _ => 0
    round := 0
    finished := false
    playersFolded := fun p => decide (¬ p < gi.numPlayers) }

/-- A seat that is neither folded nor fully committed — the predicate the
source repeats in `num_active_players`, `next_player` and the
round-advance skip loop. -/
def GameState.canAct (s : GameState) (p : ℕ) : Bool :=
  !s.playersFolded p && decide (s.spent p < s.stackPlayer p)

/-- Counting loop of `num_active_players` over seats below `k`. -/
def countActiveUpTo (s : GameState) : ℕ → ℕ
  | 0 => 0
  | k + 1 => countActiveUpTo s k + (if s.canAct k then 1 else 0)

/-- `num_active_players`: players who can still take actions. -/
def num_active_players (gi : GameInfo) (s : GameState) : ℕ :=
  countActiveUpTo s gi.numPlayers

/-- Counting loop of `num_folded` over seats below `k`. -/
def countFoldedUpTo (s : GameState) : ℕ → ℕ
  | 0 => 0
  | k + 1 => countFoldedUpTo s k + (if s.playersFolded k then 1 else 0)

/-- `num_folded`: players who have folded. -/
def num_folded (gi : GameInfo) (s : GameState) : ℕ :=
  countFoldedUpTo s gi.numPlayers

/-- `current_player`: the active player, or an error on a finished state. -/
def current_player (s : GameState) : Except String ℕ :=
  if s.finished then .error "state is finished so there is no active player"
  else .ok s.activePlayer

/-- Reverse scan of the current round's action log performed by
`num_called`: starting from the most recent action, count players who
called and are not all-in, stopping at (and also counting) the most
recent raiser if that raiser is not all-in.  The source `unwrap`s every
logged action; on machine-produced states all entries below the round's
action count are `some`, so the `none` branch is unreachable there. -/
def numCalledFrom (s : GameState) : ℕ → ℕ
  | 0 => 0
  | i + 1 =>
    let p := s.actingPlayer s.round i
    match s.action s.round i with
    | some (.raise _) => if s.spent p < s.stackPlayer p then 1 else 0
    | some .call => numCalledFrom s i + (if s.spent p < s.stackPlayer p then 1 else 0)
    | some .fold => numCalledFrom s i
    | none => 0

/-- `num_called`: players counted as having called. -/
def num_called (s : GameState) : ℕ :=
  numCalledFrom s (s.numActions s.round)

/-- Counting loop of `num_raises` over the current round's log. -/
def numRaisesFrom (s : GameState) : ℕ → ℕ
  | 0 => 0
  | i + 1 =>
    numRaisesFrom s i +
      (match s.action s.round i with
       | some (.raise _) => 1
       | _ => 0)

/-- `num_raises`: raises made in the current round. -/
def num_raises (s : GameState) : ℕ :=
  numRaisesFrom s (s.numActions s.round)

/-- Fuel-bounded version of the `next_player` seat scan: advance
`(p + 1) % num_players` until a seat that can act is found.  With at least
one such seat among `0..num_players`, `num_players` steps reach it;
`none` models the source loop running forever. -/
def nextPlayerFrom (gi : GameInfo) (s : GameState) : ℕ → ℕ → Option ℕ
  | 0, _ => none
  | fuel + 1, p =>
    let q := (p + 1) % gi.numPlayers
    if s.canAct q then some q else nextPlayerFrom gi s fuel q

/-- `next_player`: next seat after the active player that can act; `none`
models both the finished-state error (which `apply_action_no_cards`
`unwrap`s) and a diverging scan. -/
def next_player (gi : GameInfo) (s : GameState) : Option ℕ :=
  if s.finished then none
  else nextPlayerFrom gi s gi.numPlayers s.activePlayer

/-- `raise_range`: valid raise-to interval for no-limit games, `(0, 0)`
when no raise is possible. -/
def raise_range (gi : GameInfo) (s : GameState) : ℕ × ℕ :=
  if s.finished then (0, 0)
  else if num_raises s ≥ gi.maxRaises s.round then (0, 0)
  else if s.numActions s.round + gi.numPlayers > MAX_NUM_ACTIONS then (0, 0)
  else if num_active_players gi s ≤ 1 then (0, 0)
  else
    match gi.bettingType with
    | .Limit => (0, 0)
    | .NoLimit =>
      let maxRaise := s.stackPlayer s.activePlayer
      if s.stackPlayer s.activePlayer < s.minNoLimitRaiseTo then
        if s.maxSpent ≥ s.stackPlayer s.activePlayer then (0, 0)
        else (maxRaise, maxRaise)
      else (s.minNoLimitRaiseTo, maxRaise)

/-- `is_valid_action`. -/
def is_valid_action (gi : GameInfo) (s : GameState) (a : Action) : Bool :=
  if s.finished then false
  else
    match a with
    | .fold => !decide (s.spent s.activePlayer = s.stackPlayer s.activePlayer)
    | .call => true
    | .raise r =>
      if num_raises s ≥ gi.maxRaises s.round then false
      else
        match gi.bettingType with
        | .Limit => decide (r = gi.raiseSizes s.round)
        | .NoLimit =>
          let mm := raise_range gi s
          decide (mm.1 ≤ r ∧ r ≤ mm.2)

/-- Lines 467–508 of `apply_action_no_cards`: log the action, apply its
chip effects, and seat `np` (the `next_player` result computed on the
pre-action state) as the new active player. -/
def recordAndChips (gi : GameInfo) (s : GameState) (a : Action) (np : ℕ) : GameState :=
  let player := s.activePlayer
  let r := s.round
  let i := s.numActions r
  let s1 :=
    { s with
      action := fun r' i' => if r' = r ∧ i' = i then some a else s.action r' i'
      actingPlayer := fun r' i' => if r' = r ∧ i' = i then player else s.actingPlayer r' i'
      numActions := fun r' => if r' = r then s.numActions r' + 1 else s.numActions r' }
  let s2 :=
    match a with
    | .fold =>
      { s1 with playersFolded := fun p => if p = player then true else s1.playersFolded p }
    | .call =>
      let amt :=
        if s1.maxSpent > s1.stackPlayer player then s1.stackPlayer player else s1.maxSpent
      { s1 with
        spent := fun p => if p = player then amt else s1.spent p
        sumRoundSpent := fun r' p =>
          if r' = r ∧ p = player then amt else s1.sumRoundSpent r' p }
    | .raise rr =>
      let pair :=
        match gi.bettingType with
        | .NoLimit =>
          (rr,
            if rr * 2 - s1.maxSpent > s1.minNoLimitRaiseTo then rr * 2 - s1.maxSpent
            else s1.minNoLimitRaiseTo)
        | .Limit =>
          (if s1.maxSpent + gi.raiseSizes r > s1.stackPlayer player then s1.stackPlayer player
           else s1.maxSpent + gi.raiseSizes r,
            s1.minNoLimitRaiseTo)
      { s1 with
        maxSpent := pair.1
        minNoLimitRaiseTo := pair.2
        spent := fun p => if p = player then pair.1 else s1.spent p
        sumRoundSpent := fun r' p =>
          if r' = r ∧ p = player then pair.1 else s1.sumRoundSpent r' p }
  { s2 with activePlayer := np }

/-- Fuel-bounded version of the round-advance `while` loop: starting from
seat `p`, move to `(p + 1) % num_players` while the current seat is folded
or fully committed.  With a starting seat below `num_players` and at least
one seat that can act, `num_players + 1` steps suffice; `none` models the
source loop running forever. -/
def skipFrom (gi : GameInfo) (st : GameState) : ℕ → ℕ → Option ℕ
  | 0, _ => none
  | fuel + 1, p =>
    if st.canAct p then some p else skipFrom gi st fuel ((p + 1) % gi.numPlayers)

/-- Folded computation of the `min_no_limit_raise_to` reset loop on a
round advance: start from `1` and take any strictly larger blind among
players `0..k`. -/
def minNoReset (gi : GameInfo) : ℕ → ℕ
  | 0 => 1
  | k + 1 =>
    if gi.blinds k > minNoReset gi k then gi.blinds k else minNoReset gi k

/-- Lines 510–535 of `apply_action_no_cards`: terminal and round-advance
checks performed on the post-chip state `mid`. -/
def advanceState (gi : GameInfo) (mid : GameState) : Option GameState :=
  if num_folded gi mid + 1 ≥ gi.numPlayers then some { mid with finished := true }
  else if num_called mid ≥ num_active_players gi mid then
    if num_active_players gi mid > 1 then
      if mid.round + 1 < gi.numRounds then
        match skipFrom gi mid (gi.numPlayers + 1) (gi.firstPlayer (mid.round + 1)) with
        | none => none
        | some ap =>
          some
            { mid with
              round := mid.round + 1
              minNoLimitRaiseTo := minNoReset gi gi.numPlayers + mid.maxSpent
              activePlayer := ap }
      else some { mid with finished := true }
    else some { mid with finished := true, round := gi.numRounds - 1 }
  else some mid

/-- `apply_action_no_cards`: the transition function.  The three guard
failures return the source's error strings; the outer `none` marks the
(unreachable on machine states) cases where the source would diverge in a
seat scan. -/
def apply_action_no_cards (gi : GameInfo) (s : GameState) (a : Action) :
    Option (Except String GameState) :=
  if s.finished then some (.error "cannot apply action to finished state")
  else if s.numActions s.round ≥ MAX_NUM_ACTIONS then
    some (.error "cannot apply action to state: already at max actions for this round")
  else if ¬ is_valid_action gi s a then some (.error "cannot apply an invalid action")
  else
    match next_player gi s with
    | none => none
    | some np =>
      match advanceState gi (recordAndChips gi s a np) with
      | none => none
      | some s' => some (.ok s')

/-- Summation loop of the single-non-folder branch of `get_payout`: total
spend of all seats below `k` other than the queried player. -/
def sumSpentExcept (s : GameState) (player : ℕ) : ℕ → ℕ
  | 0 => 0
  | i + 1 => sumSpentExcept s player i + (if i = player then 0 else s.spent i)

/-- Gather pass of `get_payout`: the seats with nonzero spend, in seat
order (`players_left` is its length). -/
def gatherPlayers (gi : GameInfo) (s : GameState) : List ℕ :=
  (List.range gi.numPlayers).filter fun i => decide (s.spent i ≠ 0)

/-- The `rank` vector filled by the gather pass: position `j` holds the
rank class of the `j`-th gathered seat, or `none` if that seat folded.
Positions at and above the gathered length keep the `None` initialiser.
Crucially, the source never rewrites this vector afterwards — the
survivor-compaction loop copies only `spent` — so the payout loop keeps
indexing it with the original gather positions. -/
def gatherRank (gi : GameInfo) (rankOf : ℕ → ℕ) (s : GameState) : ℕ → Option ℕ :=
  fun j =>
    ((gatherPlayers gi s).get? j).bind
      fun i => if s.playersFolded i then none else some (rankOf i)

/-- The `player_idx` computed during the gather pass: position of the
queried player in the gathered list; `none` models the
`player_idx > -1` assertion failing. -/
def gatherIdxFrom (player : ℕ) : List ℕ → ℕ → Option ℕ
  | [], _ => none
  | i :: rest, j => if i = player then some j else gatherIdxFrom player rest (j + 1)

/-- The layer-size fold of the payout loop: smallest entry, starting from
`u32::MAX`. -/
def minSpent (l : List ℕ) : ℕ :=
  l.foldl (fun acc x => if x < acc then x else acc) U32_MAX

/-- The `win_rank` / `num_winners` scan of the payout loop over rank
positions `0..k`: best rank seen (starting from `EvalClass::HighCard` at
`Rank::Two`, i.e. `0`) and how many positions hold it. -/
def winScanFrom (rank0 : ℕ → Option ℕ) : ℕ → ℕ × ℕ
  | 0 => (0, 0)
  | i + 1 =>
    let wr := (winScanFrom rank0 i).1
    let nw := (winScanFrom rank0 i).2
    match rank0 i with
    | some r => if r > wr then (r, 1) else if r = wr then (wr, nw + 1) else (wr, nw)
    | none => (wr, nw)

/-- The survivor-compaction loop of the payout iteration, walking the
`spent` entries from index `i` upward: subtract the layer `size` from each
entry; an entry reaching `0` at the queried position returns (`.inl`),
other zero entries are dropped, and surviving entries are compacted —
only the `spent` values, exactly as in the source, which leaves the rank
vector and the queried index untouched. -/
def shrinkSpent (pidx size : ℕ) : ℕ → List ℕ → Sum Unit (List ℕ)
  | _, [] => .inr []
  | i, x :: xs =>
    if x - size = 0 then
      if i = pidx then .inl () else shrinkSpent pidx size (i + 1) xs
    else
      match shrinkSpent pidx size (i + 1) xs with
      | .inl u => .inl u
      | .inr rest => .inr ((x - size) :: rest)

/-- One-iteration-per-fuel-unit version of the side-pot loop of
`get_payout` (lines 609–661).  `none` covers fuel exhaustion, the
`assert!(spent[i] > 0)` failing, the `rank[player_idx]` `unwrap` of
`None`, and the `i32` division by zero when `num_winners = 0`.  As in the
source, the rank vector `rank0` and the queried position `pidx` are never
updated across iterations.  Starting from `k` entries, the source either
answers within `k` iterations (while nonempty, each iteration drops at
least the minimal entry) or reaches the empty list and never answers, so
`k + 2` fuel returns exactly the source's answers. -/
def payoutLoop (rank0 : ℕ → Option ℕ) (pidx : ℕ) : ℕ → List ℕ → ℤ → Option ℤ
  | 0, _, _ => none
  | fuel + 1, spentL, value =>
    if spentL.any (fun x => decide (x = 0)) then none
    else
      let L := spentL.length
      let size := minSpent spentL
      let wr := (winScanFrom rank0 L).1
      let nw := (winScanFrom rank0 L).2
      match rank0 pidx with
      | none => none
      | some rp =>
        let step :=
          if rp = wr then
            if nw = 0 then none
            else some (value + Int.tdiv (i32ofU32 size * ((L : ℤ) - (nw : ℤ))) (nw : ℤ))
          else some (value - i32ofU32 size)
        match step with
        | none => none
        | some v' =>
          match shrinkSpent pidx size 0 spentL with
          | .inl _ => some v'
          | .inr newSpent => payoutLoop rank0 pidx fuel newSpent v'

/-- `get_payout`: net chip result of `player` for a finished hand, with
the per-player card evaluation abstracted as `rankOf`. -/
def get_payout (gi : GameInfo) (rankOf : ℕ → ℕ) (s : GameState) (player : ℕ) : Option ℤ :=
  if s.playersFolded player then some (-(s.spent player : ℤ))
  else if ¬ s.finished then none
  else if num_folded gi s + 1 = gi.numPlayers then
    some (sumSpentExcept s player gi.numPlayers : ℤ)
  else if (gatherPlayers gi s).length ≤ 1 then none
  else
    match gatherIdxFrom player (gatherPlayers gi s) 0 with
    | none => none
    | some pidx =>
      payoutLoop (gatherRank gi rankOf s) pidx ((gatherPlayers gi s).length + 2)
        ((gatherPlayers gi s).map s.spent) 0

/-- The side-pot iteration exactly as the specification words it (spec
§4.3), for comparison with the source loop: each entry carries the
remaining commitment, the rank class (`none` for a folded contributor) and
a marker for the queried player, and dropped entries take their rank with
them.  Written as a second definition solely to compare the source
behaviour against the specified algorithm. -/
def specSidePot : ℕ → List (ℕ × Option ℕ × Bool) → ℤ → Option ℤ
  | 0, _, _ => none
  | fuel + 1, entries, value =>
    let L := entries.length
    let size := minSpent (entries.map Prod.fst)
    let ranks := entries.filterMap fun e => e.2.1
    let wr := ranks.foldl max 0
    let w := List.count wr ranks
    match entries.find? (fun e => e.2.2) with
    | none => none
    | some q =>
      let value' :=
        if q.2.1 = some wr then value + (((size * (L - w)) / w : ℕ) : ℤ)
        else value - (size : ℤ)
      if q.1 - size = 0 then some value'
      else
        specSidePot fuel
          (entries.filterMap fun e =>
            if e.1 - size = 0 then none else some (e.1 - size, e.2)) value'

/-- One step of the `win_rank` / `num_winners` scan (proof vocabulary:
`winScanFrom rank0 (i + 1)` is `wstep (winScanFrom rank0 i) (rank0 i)`);
a `none` entry is a folded contributor and is skipped. -/
def wstep (acc : ℕ × ℕ) (o : Option ℕ) : ℕ × ℕ :=
  match o with
  | some r => if r > acc.1 then (r, 1) else if r = acc.1 then (acc.1, acc.2 + 1) else acc
  | none => acc

/-- The scan step on a present rank. -/
def pstep (acc : ℕ × ℕ) (r : ℕ) : ℕ × ℕ :=
  if r > acc.1 then (r, 1) else if r = acc.1 then (acc.1, acc.2 + 1) else acc

/-- Statement vocabulary: the seated players that have not folded. -/
def foldedFree (gi : GameInfo) (s : GameState) : List ℕ :=
  (List.range gi.numPlayers).filter fun p => !s.playersFolded p

/-- Statement vocabulary: the best rank class among non-folded players
(`0`, the order minimum, when there are none). -/
def bestRank (gi : GameInfo) (rankOf : ℕ → ℕ) (s : GameState) : ℕ :=
  ((foldedFree gi s).map rankOf).foldl max 0

/-- Statement vocabulary: how many non-folded players hold the best rank
class. -/
def winCount (gi : GameInfo) (rankOf : ℕ → ℕ) (s : GameState) : ℕ :=
  List.count (bestRank gi rankOf s) ((foldedFree gi s).map rankOf)

/-! Concrete instances used by scenario evaluations and witnesses. -/

/-- A three-player no-limit ruleset. -/
def gi3 : GameInfo :=
  { startingStacks := fun _ => 20
    blinds := fun p => if p = 0 then 1 else if p = 1 then 2 else 0
    raiseSizes := fun _ => 2
    bettingType := .NoLimit
    numPlayers := 3
    numRounds := 4
    maxRaises := fun _ => 8
    firstPlayer := fun _ => 0 }

/-- A heads-up no-limit ruleset, blinds 1/2, stacks 100, two rounds. -/
def gi2 : GameInfo :=
  { startingStacks := fun _ => 100
    blinds := fun p => if p = 0 then 1 else if p = 1 then 2 else 0
    raiseSizes := fun _ => 2
    bettingType := .NoLimit
    numPlayers := 2
    numRounds := 2
    maxRaises := fun _ => 9
    firstPlayer := fun _ => 0 }

/-- Finished three-player showdown with spends `[5, 20, 20]`, nobody
folded: the side-pot scenario of the specification. -/
def ps1 : GameState :=
  { handId := 0
    maxSpent := 20
    minNoLimitRaiseTo := 40
    spent := fun p => if p = 0 then 5 else if p < 3 then 20 else 0
    stackPlayer := fun p => if p = 0 then 5 else if p < 3 then 20 else 0
    sumRoundSpent := fun _ _ => 0
    action := fun _ _ => none
    actingPlayer := fun _ _ => 0
    activePlayer := 0
    numActions := fun _ => 0
    round := 3
    finished := true
    playersFolded := fun p => decide (¬ p < 3) }

/-- Rank classes for `ps1`: seat 0 best, then seat 1, then seat 2. -/
def rankOf2 : ℕ → ℕ := fun p => 3 - p

/-- Finished three-player showdown with equal spends `[1, 1, 1]`, nobody
folded. -/
def cs1 : GameState :=
  { ps1 with
    spent := fun p => if p < 3 then 1 else 0
    stackPlayer := fun p => if p < 3 then 10 else 0
    maxSpent := 1
    minNoLimitRaiseTo := 2 }

/-- Rank classes for `cs1`: seats 0 and 1 tie for best, seat 2 worse. -/
def rankOf1 : ℕ → ℕ := fun p => if p ≤ 1 then 1 else 0

/-- A running (not finished) three-player state in which seat 0 already
folded after committing 7 chips. -/
def nf1 : GameState :=
  { ps1 with
    finished := false
    playersFolded := fun p => decide (p = 0)
    spent := fun p => if p = 0 then 7 else if p < 3 then 9 else 0
    stackPlayer := fun p => if p < 3 then 50 else 0
    activePlayer := 1 }

/-- Fresh heads-up hand under `gi2`. -/
def hu0 : GameState := GameState.new gi2 0

/-- Heads-up hand after seat 0 calls. -/
def hu1 : GameState :=
  match apply_action_no_cards gi2 hu0 .call with
  | some (.ok t) => t
  | _ => hu0

/-- Heads-up hand after both seats call (round has advanced). -/
def hu2 : GameState :=
  match apply_action_no_cards gi2 hu1 .call with
  | some (.ok t) => t
  | _ => hu0

/-- Heads-up state whose active seat is fully committed. -/
def allin2 : GameState :=
  { hu0 with
    spent := fun p => if p < 2 then 100 else 0
    maxSpent := 100 }

/-- Non-finished heads-up state with 31 logged calls in round 0: one slot
of the action log is still free, but not one per player. -/
def s4 : GameState :=
  { hu0 with
    spent := fun p => if p < 2 then 2 else 0
    maxSpent := 2
    minNoLimitRaiseTo := 4
    numActions := fun r => if r = 0 then 31 else 0
    action := fun r i => if r = 0 ∧ i < 31 then some .call else none
    actingPlayer := fun _ _ => 0 }

/-- Variant of `s4` with an empty action log. -/
def s4b : GameState :=
  { s4 with
    numActions := fun _ => 0
    action := fun _ _ => none }

end Ungar

namespace Ungar

/-! ## Theorems -/

/-- Every residue below `n` is reached from any origin within `n` steps of
`+1 mod n`. -/
theorem exists_shift (n a p : ℕ) (hn : 0 < n) (hp : p < n) :
    ∃ j, j < n ∧ (a + j) % n = p := by
  refine ⟨(p + n - a % n) % n, Nat.mod_lt _ hn, ?_⟩
  have h2 : a % n < n := Nat.mod_lt _ hn
  have hx : a % n + (p + n - a % n) = p + n := by omega
  rw [Nat.add_mod_mod, ← Nat.mod_add_mod, hx, Nat.add_mod_right]
  exact Nat.mod_eq_of_lt hp

/-- A positive active count produces a seat that can act. -/
theorem countActive_exists (s : GameState) :
    ∀ k, 0 < countActiveUpTo s k → ∃ p, p < k ∧ s.canAct p = true := by
  intro k
  induction k with
  | zero => simp [countActiveUpTo]
  | succ k ih =>
    intro h
    by_cases hc : s.canAct k
    · exact ⟨k, Nat.lt_succ_self k, hc⟩
    · rw [countActiveUpTo, if_neg hc, Nat.add_zero] at h
      obtain ⟨p, hp, hcp⟩ := ih h
      exact ⟨p, hp.trans (Nat.lt_succ_self k), hcp⟩

/-- The `next_player` scan succeeds as soon as one of the seats it visits
(`(start + 1 + j) % n` for `j < fuel`) can act. -/
theorem nextPlayerFrom_isSome (gi : GameInfo) (s : GameState) :
    ∀ fuel start, (∃ j, j < fuel ∧ s.canAct ((start + 1 + j) % gi.numPlayers) = true) →
    (nextPlayerFrom gi s fuel start).isSome = true := by
  intro fuel
  induction fuel with
  | zero =>
    rintro start ⟨j, hj, -⟩
    omega
  | succ fuel ih =>
    rintro start ⟨j, hj, hcan⟩
    rw [nextPlayerFrom]
    by_cases hc : s.canAct ((start + 1) % gi.numPlayers)
    · simp [hc]
    · rw [if_neg hc]
      obtain ⟨j', rfl⟩ : ∃ j', j = j' + 1 := by
        refine ⟨j - 1, ?_⟩
        rcases Nat.eq_zero_or_pos j with h0 | h0
        · subst h0
          simp only [Nat.add_zero] at hcan
          exact absurd hcan hc
        · omega
      refine ih ((start + 1) % gi.numPlayers) ⟨j', by omega, ?_⟩
      rw [Nat.add_assoc, Nat.mod_add_mod]
      have harith : start + 1 + (1 + j') = start + 1 + (j' + 1) := by omega
      rw [harith]
      exact hcan

/-- Characterisation of the round-advance skip loop: starting from a
seated position, it returns the first seat along the rotation that can
act, provided one is reachable within the fuel. -/
theorem skipFrom_spec (gi : GameInfo) (st : GameState) :
    ∀ fuel start, start < gi.numPlayers →
    (∃ j, j < fuel ∧ st.canAct ((start + j) % gi.numPlayers) = true) →
    ∃ j, j < fuel ∧ skipFrom gi st fuel start = some ((start + j) % gi.numPlayers) ∧
      st.canAct ((start + j) % gi.numPlayers) = true ∧
      ∀ k, k < j → st.canAct ((start + k) % gi.numPlayers) = false := by
  intro fuel
  induction fuel with
  | zero =>
    rintro start - ⟨j, hj, -⟩
    omega
  | succ fuel ih =>
    rintro start hs ⟨j, hj, hcan⟩
    have hn : 0 < gi.numPlayers := Nat.pos_of_ne_zero (by omega)
    by_cases hc : st.canAct start
    · refine ⟨0, Nat.succ_pos _, ?_, ?_, ?_⟩
      · rw [skipFrom, if_pos hc, Nat.add_zero, Nat.mod_eq_of_lt hs]
      · rw [Nat.add_zero, Nat.mod_eq_of_lt hs]
        exact hc
      · intro k hk
        omega
    · obtain ⟨j', rfl⟩ : ∃ j', j = j' + 1 := by
        refine ⟨j - 1, ?_⟩
        rcases Nat.eq_zero_or_pos j with h0 | h0
        · subst h0
          rw [Nat.add_zero, Nat.mod_eq_of_lt hs] at hcan
          exact absurd hcan hc
        · omega
      have hs' : (start + 1) % gi.numPlayers < gi.numPlayers := Nat.mod_lt _ hn
      have hshift : ∀ m, ((start + 1) % gi.numPlayers + m) % gi.numPlayers
          = (start + (m + 1)) % gi.numPlayers := by
        intro m
        rw [Nat.mod_add_mod]
        have harith : start + 1 + m = start + (m + 1) := by omega
        rw [harith]
      have hcan' : st.canAct (((start + 1) % gi.numPlayers + j') % gi.numPlayers) = true := by
        rw [hshift]
        exact hcan
      obtain ⟨j2, hj2, hskip, hcan2, hmin⟩ :=
        ih ((start + 1) % gi.numPlayers) hs' ⟨j', by omega, hcan'⟩
      refine ⟨j2 + 1, by omega, ?_, ?_, ?_⟩
      · rw [skipFrom, if_neg hc, hskip, hshift]
      · rw [← hshift]
        exact hcan2
      · intro k hk
        cases k with
        | zero =>
          rw [Nat.add_zero, Nat.mod_eq_of_lt hs]
          exact Bool.eq_false_iff.mpr hc
        | succ k' =>
          rw [← hshift]
          exact hmin k' (by omega)

/-- The terminal/round-advance phase always produces a state when the
ruleset seats a player and the next round's configured first player is
seated. -/
theorem advanceState_isSome (gi : GameInfo) (mid : GameState)
    (hn : 0 < gi.numPlayers)
    (hfp : mid.round + 1 < gi.numRounds → gi.firstPlayer (mid.round + 1) < gi.numPlayers) :
    (advanceState gi mid).isSome = true := by
  unfold advanceState
  split_ifs with h1 h2 h3 h4
  · rfl
  · have hpos : 0 < countActiveUpTo mid gi.numPlayers := by
      have := h3
      unfold num_active_players at this
      omega
    obtain ⟨p, hp, hcp⟩ := countActive_exists mid gi.numPlayers hpos
    obtain ⟨j, hj, hjp⟩ := exists_shift gi.numPlayers (gi.firstPlayer (mid.round + 1)) p hn hp
    obtain ⟨j2, -, hskip, -, -⟩ :=
      skipFrom_spec gi mid (gi.numPlayers + 1) (gi.firstPlayer (mid.round + 1)) (hfp h4)
        ⟨j, by omega, by rw [hjp]; exact hcp⟩
    rw [hskip]
    rfl
  · rfl
  · rfl
  · rfl

/-- Recording an action never changes the round. -/
theorem recordAndChips_round (gi : GameInfo) (s : GameState) (a : Action) (np : ℕ) :
    (recordAndChips gi s a np).round = s.round := by
  cases a <;> rfl

/-- Recording an action never changes the finished flag. -/
theorem recordAndChips_finished (gi : GameInfo) (s : GameState) (a : Action) (np : ℕ) :
    (recordAndChips gi s a np).finished = s.finished := by
  cases a <;> rfl

/-- Elimination principle for a successful transition: the three guards
passed and the result is the advance of the recorded post-chip state. -/
theorem apply_ok_elim (gi : GameInfo) (s : GameState) (a : Action) (s' : GameState)
    (h : apply_action_no_cards gi s a = some (Except.ok s')) :
    s.finished = false ∧ s.numActions s.round < MAX_NUM_ACTIONS ∧
      is_valid_action gi s a = true ∧
      ∃ np, next_player gi s = some np ∧
        advanceState gi (recordAndChips gi s a np) = some s' := by
  rw [apply_action_no_cards] at h
  cases hf : s.finished with
  | true =>
    rw [hf] at h
    simp at h
  | false =>
    rw [hf] at h
    simp only [Bool.false_eq_true, if_false] at h
    by_cases h2 : s.numActions s.round ≥ MAX_NUM_ACTIONS
    · rw [if_pos h2] at h
      simp at h
    · rw [if_neg h2] at h
      by_cases h3 : is_valid_action gi s a = true
      · rw [if_neg (not_not_intro h3)] at h
        refine ⟨rfl, by omega, h3, ?_⟩
        cases hnp : next_player gi s with
        | none =>
          rw [hnp] at h
          simp at h
        | some np =>
          rw [hnp] at h
          have h' : (match advanceState gi (recordAndChips gi s a np) with
              | none => none
              | some t => some (Except.ok t)) = some (Except.ok s') := h
          cases hadv : advanceState gi (recordAndChips gi s a np) with
          | none =>
            rw [hadv] at h'
            simp at h'
          | some s'' =>
            rw [hadv] at h'
            simp only [Option.some.injEq, Except.ok.injEq] at h'
            exact ⟨np, rfl, by rw [hadv, h']⟩
      · rw [if_pos h3] at h
        simp at h

/-- C3: the transition succeeds exactly when the state is not finished,
the round's action count is below the per-round cap, and the action is
valid; and each of the three failure conditions reports its own distinct
error.  The hypotheses are the machine invariants: the ruleset seats a
player, every configured first player is seated, a non-finished state's
active player can act, and logged actions below the count are present. -/
theorem C3_legality_closure (gi : GameInfo) (s : GameState) (a : Action)
    (hn : 0 < gi.numPlayers)
    (hfp : ∀ r, r < gi.numRounds → gi.firstPlayer r < gi.numPlayers)
    (hact : s.finished = false → s.canAct s.activePlayer = true ∧ s.activePlayer < gi.numPlayers)
    (_hlog : ∀ i, i < s.numActions s.round → (s.action s.round i).isSome = true) :
    ((∃ s', apply_action_no_cards gi s a = some (Except.ok s')) ↔
      (s.finished = false ∧ s.numActions s.round < MAX_NUM_ACTIONS ∧
        is_valid_action gi s a = true)) ∧
    (s.finished = true →
      apply_action_no_cards gi s a =
        some (Except.error "cannot apply action to finished state")) ∧
    (s.finished = false → MAX_NUM_ACTIONS ≤ s.numActions s.round →
      apply_action_no_cards gi s a =
        some (Except.error "cannot apply action to state: already at max actions for this round")) ∧
    (s.finished = false → s.numActions s.round < MAX_NUM_ACTIONS →
      is_valid_action gi s a = false →
      apply_action_no_cards gi s a = some (Except.error "cannot apply an invalid action")) ∧
    ("cannot apply action to finished state" ≠
        "cannot apply action to state: already at max actions for this round" ∧
      "cannot apply action to finished state" ≠ "cannot apply an invalid action" ∧
      ("cannot apply action to state: already at max actions for this round" : String) ≠
        "cannot apply an invalid action") := by
  refine ⟨⟨?fwd, ?bwd⟩, ?e1, ?e2, ?e3, by decide, by decide, by decide⟩
  case fwd =>
    rintro ⟨s', hs'⟩
    obtain ⟨hf, hlt, hv, -⟩ := apply_ok_elim gi s a s' hs'
    exact ⟨hf, hlt, hv⟩
  case bwd =>
    rintro ⟨hf, hlt, hv⟩
    have hns : (next_player gi s).isSome = true := by
      unfold next_player
      rw [hf]
      simp only [Bool.false_eq_true, if_false]
      obtain ⟨hca, hlt'⟩ := hact hf
      obtain ⟨j, hj, hjp⟩ :=
        exists_shift gi.numPlayers (s.activePlayer + 1) s.activePlayer hn hlt'
      exact nextPlayerFrom_isSome gi s gi.numPlayers s.activePlayer
        ⟨j, hj, by rw [hjp]; exact hca⟩
    obtain ⟨np, hnp⟩ := Option.isSome_iff_exists.mp hns
    have hadv : (advanceState gi (recordAndChips gi s a np)).isSome = true := by
      refine advanceState_isSome gi _ hn ?_
      rw [recordAndChips_round]
      exact fun h => hfp _ h
    obtain ⟨s', hs'⟩ := Option.isSome_iff_exists.mp hadv
    refine ⟨s', ?_⟩
    have hnlt : ¬ s.numActions s.round ≥ MAX_NUM_ACTIONS := by omega
    simp only [apply_action_no_cards, hf, Bool.false_eq_true, if_false, hnlt, hv,
      not_true_eq_false, hnp, hs']
  case e1 =>
    intro hf
    simp [apply_action_no_cards, hf]
  case e2 =>
    intro hf hge
    simp [apply_action_no_cards, hf, hge]
  case e3 =>
    intro hf hlt hinv
    have hnlt : ¬ s.numActions s.round ≥ MAX_NUM_ACTIONS := by omega
    simp [apply_action_no_cards, hf, hnlt, hinv]

/-- The reset loop for the minimum raise-to computes the largest blind,
or 1 when no blind exceeds 1. -/
theorem minNoReset_eq (gi : GameInfo) : ∀ k, minNoReset gi k = max 1 (maxBlindUpTo gi k) := by
  intro k
  induction k with
  | zero => simp [minNoReset, maxBlindUpTo]
  | succ k ih =>
    rw [minNoReset, maxBlindUpTo, ih]
    split_ifs <;> omega

/-- C5: after an accepted action that leaves more than one player
non-folded, with enough calls to close the round (both measured on the
post-chip state `mid`), the state either advances by exactly one round —
resetting the minimum raise-to to the largest blind (or 1) plus
`max_spent` and seating the new round's configured first player, skipping
seats that cannot act — or skips to the final round and finishes when at
most one player can still act, or finishes when no round remains. -/
theorem C5_round_advance (gi : GameInfo) (s : GameState) (a : Action) (np : ℕ)
    (s' mid : GameState)
    (hmid : mid = recordAndChips gi s a np)
    (hnext : next_player gi s = some np)
    (happly : apply_action_no_cards gi s a = some (Except.ok s'))
    (hfold : num_folded gi mid + 1 < gi.numPlayers)
    (hcall : num_active_players gi mid ≤ num_called mid) :
    (1 < num_active_players gi mid → mid.round + 1 < gi.numRounds →
      gi.firstPlayer (mid.round + 1) < gi.numPlayers →
      s'.round = s.round + 1 ∧ s'.finished = false ∧
      s'.minNoLimitRaiseTo = max 1 (maxBlindUpTo gi gi.numPlayers) + mid.maxSpent ∧
      ∃ j, s'.activePlayer = (gi.firstPlayer (s.round + 1) + j) % gi.numPlayers ∧
        mid.canAct s'.activePlayer = true ∧
        ∀ k, k < j →
          mid.canAct ((gi.firstPlayer (s.round + 1) + k) % gi.numPlayers) = false) ∧
    (1 < num_active_players gi mid → ¬ mid.round + 1 < gi.numRounds →
      s'.finished = true ∧ s'.round = s.round) ∧
    (num_active_players gi mid ≤ 1 →
      s'.finished = true ∧ s'.round = gi.numRounds - 1) := by
  obtain ⟨hf, -, -, np', hnp', hadv⟩ := apply_ok_elim gi s a s' happly
  rw [hnext] at hnp'
  obtain rfl : np = np' := by simpa using hnp'
  rw [← hmid] at hadv
  have hmr : mid.round = s.round := by rw [hmid, recordAndChips_round]
  have hmf : mid.finished = false := by rw [hmid, recordAndChips_finished, hf]
  unfold advanceState at hadv
  rw [if_neg (by omega : ¬ num_folded gi mid + 1 ≥ gi.numPlayers), if_pos hcall] at hadv
  refine ⟨?_, ?_, ?_⟩
  · intro h2 hr hfp
    rw [if_pos h2, if_pos hr] at hadv
    have hpos : 0 < countActiveUpTo mid gi.numPlayers := by
      have := h2
      unfold num_active_players at this
      omega
    have hn : 0 < gi.numPlayers := by omega
    obtain ⟨p, hp, hcp⟩ := countActive_exists mid _ hpos
    obtain ⟨j0, hj0, hj0p⟩ := exists_shift gi.numPlayers (gi.firstPlayer (mid.round + 1)) p hn hp
    obtain ⟨j, hj, hskip, hcanj, hminj⟩ :=
      skipFrom_spec gi mid (gi.numPlayers + 1) (gi.firstPlayer (mid.round + 1)) hfp
        ⟨j0, by omega, by rw [hj0p]; exact hcp⟩
    rw [hskip] at hadv
    simp only [Option.some.injEq] at hadv
    rw [← hadv]
    refine ⟨by simp [hmr], by simp [hmf], by simp [minNoReset_eq], ?_⟩
    refine ⟨j, ?_, ?_, ?_⟩
    · simp only [← hmr]
    · simpa using hcanj
    · intro k hk
      rw [← hmr]
      exact hminj k hk
  · intro h2 hr
    rw [if_pos h2, if_neg hr] at hadv
    simp only [Option.some.injEq] at hadv
    rw [← hadv]
    exact ⟨rfl, hmr⟩
  · intro h1
    rw [if_neg (by omega : ¬ num_active_players gi mid > 1)] at hadv
    simp only [Option.some.injEq] at hadv
    rw [← hadv]
    exact ⟨rfl, rfl⟩

/-- The accumulator is below every fold of `max` seeded with it. -/
theorem le_foldl_max (l : List ℕ) : ∀ a, a ≤ l.foldl max a := by
  induction l with
  | nil => intro a; exact le_refl a
  | cons x xs ih => intro a; exact le_trans (le_max_left a x) (ih (max a x))

/-- Every member is below the fold of `max`. -/
theorem mem_le_foldl_max (l : List ℕ) : ∀ (a x : ℕ), x ∈ l → x ≤ l.foldl max a := by
  induction l with
  | nil => intro a x h; cases h
  | cons y ys ih =>
    intro a x h
    rcases List.mem_cons.mp h with rfl | hmem
    · exact le_trans (le_max_right a x) (le_foldl_max ys (max a x))
    · exact ih _ x hmem

/-- The fold of `max` over a nonempty list is attained by a member. -/
theorem foldl_max_mem (l : List ℕ) (h : l ≠ []) : l.foldl max 0 ∈ l := by
  induction l using List.reverseRecOn with
  | nil => exact absurd rfl h
  | append_singleton l a ih =>
    rw [List.foldl_append]
    rcases le_or_lt (l.foldl max 0) a with hle | hlt
    · have : List.foldl max (l.foldl max 0) [a] = a := by
        show max (l.foldl max 0) a = a
        omega
      rw [this]
      exact List.mem_append_right l (List.mem_singleton_self a)
    · have hne : l ≠ [] := by
        intro hnil
        subst hnil
        simp at hlt
      have : List.foldl max (l.foldl max 0) [a] = l.foldl max 0 := by
        show max (l.foldl max 0) a = l.foldl max 0
        omega
      rw [this]
      exact List.mem_append_left _ (ih hne)

/-- Unfolding of the rank scan as a fold over the scanned prefix. -/
theorem winScanFrom_eq_foldl (rank0 : ℕ → Option ℕ) :
    ∀ k, winScanFrom rank0 k = List.foldl wstep (0, 0) ((List.range k).map rank0) := by
  intro k
  induction k with
  | zero => rfl
  | succ k ih =>
    have hstep : winScanFrom rank0 (k + 1) = wstep (winScanFrom rank0 k) (rank0 k) := rfl
    rw [hstep, ih, List.range_succ, List.map_append, List.foldl_append]
    rfl

/-- Folding `wstep` over options is folding `pstep` over the present
values. -/
theorem foldl_wstep_filterMap :
    ∀ (ol : List (Option ℕ)) (acc : ℕ × ℕ),
      List.foldl wstep acc ol = List.foldl pstep acc (ol.filterMap id) := by
  intro ol
  induction ol with
  | nil => intro acc; rfl
  | cons o ol ih =>
    intro acc
    cases o with
    | none =>
      rw [List.foldl_cons, List.filterMap_cons_none (by rfl)]
      exact ih acc
    | some r =>
      rw [List.foldl_cons]
      have hfm : List.filterMap id (some r :: ol) = r :: List.filterMap id ol := rfl
      rw [hfm, List.foldl_cons]
      exact ih (pstep acc r)

/-- The rank scan computes the maximum rank and its multiplicity. -/
theorem foldl_pstep_max_count (rl : List ℕ) :
    List.foldl pstep (0, 0) rl = (rl.foldl max 0, List.count (rl.foldl max 0) rl) := by
  induction rl using List.reverseRecOn with
  | nil => rfl
  | append_singleton l a ih =>
    have hmax : (l ++ [a]).foldl max 0 = max (l.foldl max 0) a := by
      rw [List.foldl_append]
      rfl
    have hpl : List.foldl pstep (0, 0) (l ++ [a]) = pstep (List.foldl pstep (0, 0) l) a := by
      rw [List.foldl_append]
      rfl
    rw [hpl, ih, hmax]
    unfold pstep
    rcases lt_trichotomy (l.foldl max 0) a with hlt | heq | hgt
    · rw [if_pos (by exact hlt)]
      have hM : max (l.foldl max 0) a = a := by omega
      have hnot : a ∉ l := by
        intro hmem
        exact absurd (mem_le_foldl_max l 0 a hmem) (by omega)
      rw [hM, List.count_append, List.count_eq_zero.mpr hnot]
      simp
    · have hM : max (l.foldl max 0) a = l.foldl max 0 := by omega
      rw [if_neg (by omega), if_pos heq.symm, hM, List.count_append]
      have hone : List.count (l.foldl max 0) [a] = 1 := by
        simp [List.count_singleton, heq]
      rw [hone]
    · have hM : max (l.foldl max 0) a = l.foldl max 0 := by omega
      rw [if_neg (by omega), if_neg (by omega), hM, List.count_append]
      have hzero : List.count (l.foldl max 0) [a] = 0 := by
        simp only [List.count_singleton]
        rw [if_neg]
        simp only [beq_iff_eq]
        omega
      rw [hzero]
      simp

/-- The winner count never exceeds the number of scanned positions. -/
theorem winScan_snd_le (rank0 : ℕ → Option ℕ) : ∀ k, (winScanFrom rank0 k).2 ≤ k := by
  intro k
  induction k with
  | zero => exact le_refl 0
  | succ k ih =>
    have hstep : winScanFrom rank0 (k + 1) = wstep (winScanFrom rank0 k) (rank0 k) := rfl
    rw [hstep]
    unfold wstep
    cases rank0 k with
    | none => exact le_trans ih (Nat.le_succ k)
    | some r =>
      show (if r > (winScanFrom rank0 k).1 then (r, 1)
          else if r = (winScanFrom rank0 k).1
            then ((winScanFrom rank0 k).1, (winScanFrom rank0 k).2 + 1)
          else winScanFrom rank0 k).2 ≤ k + 1
      split_ifs with h1 h2
      · exact Nat.succ_le_succ (Nat.zero_le k)
      · exact Nat.succ_le_succ ih
      · exact le_trans ih (Nat.le_succ k)

/-- Functions reading a list through `get?` restrict to a map over it. -/
theorem range_map_get {α β : Type} :
    ∀ (l : List α) (g : α → Option β),
      (List.range l.length).map (fun j => (l.get? j).bind g) = l.map g := by
  intro l
  induction l with
  | nil => intro g; rfl
  | cons x xs ih =>
    intro g
    rw [List.length_cons, List.range_succ_eq_map, List.map_cons, List.map_map, List.map_cons]
    exact congrArg₂ List.cons rfl (ih g)

/-- Present values of an `if`-masked map are the map over the unmasked
entries. -/
theorem filterMap_if_map {α β : Type} (q : α → Bool) (g : α → β) :
    ∀ l : List α,
      (l.map fun x => if q x then none else some (g x)).filterMap id
        = (l.filter fun x => !q x).map g := by
  intro l
  induction l with
  | nil => rfl
  | cons x xs ih =>
    by_cases hq : q x
    · simp [hq, ih]
    · simp [hq, ih]

/-- The gather position search finds each member, in order. -/
theorem gatherIdxFrom_mem :
    ∀ (l : List ℕ) (x j0 : ℕ), x ∈ l →
      ∃ k, k < l.length ∧ gatherIdxFrom x l j0 = some (j0 + k) ∧ l.get? k = some x := by
  intro l
  induction l with
  | nil =>
    intro x j0 h
    cases h
  | cons i rest ih =>
    intro x j0 h
    by_cases hix : i = x
    · refine ⟨0, Nat.succ_pos _, ?_, by rw [hix]; rfl⟩
      rw [Nat.add_zero]
      unfold gatherIdxFrom
      rw [if_pos hix]
    · have hx : x ∈ rest := by
        rcases List.mem_cons.mp h with rfl | hmem
        · exact absurd rfl hix
        · exact hmem
      obtain ⟨k, hk, heq, hget⟩ := ih x (j0 + 1) hx
      refine ⟨k + 1, by simpa using Nat.succ_lt_succ hk, ?_, hget⟩
      unfold gatherIdxFrom
      rw [if_neg hix, heq]
      congr 1
      omega

/-- The fold of the layer-size computation over equal stakes. -/
theorem foldl_minstep_replicate (c : ℕ) :
    ∀ k, List.foldl (fun acc x => if x < acc then x else acc) c (List.replicate k c) = c := by
  intro k
  induction k with
  | zero => rfl
  | succ k ih =>
    rw [List.replicate_succ, List.foldl_cons]
    have h : (if c < c then c else c) = c := ite_self c
    rw [h]
    exact ih

/-- The smallest of `L` equal stakes `c ≤ u32::MAX` is `c`. -/
theorem minSpent_replicate (L c : ℕ) (hL : 1 ≤ L) (hc : c ≤ U32_MAX) :
    minSpent (List.replicate L c) = c := by
  obtain ⟨k, rfl⟩ : ∃ k, L = k + 1 := ⟨L - 1, by omega⟩
  unfold minSpent
  rw [List.replicate_succ, List.foldl_cons]
  have h1 : (if c < U32_MAX then c else U32_MAX) = c := by
    by_cases h : c < U32_MAX
    · rw [if_pos h]
    · rw [if_neg h]
      omega
  rw [h1]
  exact foldl_minstep_replicate c k

/-- No zero among replicated positive stakes. -/
theorem any_replicate_zero (c : ℕ) (hc : c ≠ 0) :
    ∀ k, (List.replicate k c).any (fun x => decide (x = 0)) = false := by
  intro k
  induction k with
  | zero => rfl
  | succ k ih => simp [List.replicate_succ, ih, hc]

/-- `as i32` is the identity below `2^31`. -/
theorem i32ofU32_small (x : ℕ) (h : x < 2 ^ 31) : i32ofU32 x = (x : ℤ) := if_pos h

/-- When every stake equals the layer, the compaction walk reaches the
queried position and returns. -/
theorem shrinkSpent_replicate (c pidx : ℕ) :
    ∀ (L i : ℕ), i ≤ pidx → pidx < i + L →
      shrinkSpent pidx c i (List.replicate L c) = .inl () := by
  intro L
  induction L with
  | zero =>
    intro i h1 h2
    omega
  | succ L ih =>
    intro i h1 h2
    rw [List.replicate_succ]
    unfold shrinkSpent
    rw [if_pos (Nat.sub_self c)]
    by_cases hip : i = pidx
    · rw [if_pos hip]
    · rw [if_neg hip]
      exact ih (i + 1) (by omega) (by omega)

/-- The folded-player count below `k` as a filter length. -/
theorem countFolded_eq_filter (s : GameState) :
    ∀ k, countFoldedUpTo s k
      = ((List.range k).filter fun p => s.playersFolded p).length := by
  intro k
  induction k with
  | zero => rfl
  | succ k ih =>
    rw [countFoldedUpTo, List.range_succ, List.filter_append, List.length_append, ih]
    by_cases hf : s.playersFolded k
    · simp [hf]
    · simp [hf]

/-- Splitting an integer-valued sum over a list by a Boolean predicate. -/
theorem sum_map_split (q : ℕ → Bool) (f : ℕ → ℤ) :
    ∀ l : List ℕ,
      (l.map f).sum
        = ((l.filter q).map f).sum + ((l.filter fun x => !q x).map f).sum := by
  intro l
  induction l with
  | nil => simp
  | cons x xs ih =>
    by_cases hq : q x
    · simp only [List.map_cons, List.sum_cons, List.filter_cons, hq, if_pos,
        Bool.not_true, ih]
      simp
      ring
    · simp only [List.map_cons, List.sum_cons, List.filter_cons, hq, Bool.not_false, ih]
      simp
      ring

/-- An integer-valued sum of constants. -/
theorem sum_map_const (f : ℕ → ℤ) (c : ℤ) :
    ∀ l : List ℕ, (∀ x ∈ l, f x = c) → (l.map f).sum = l.length * c := by
  intro l
  induction l with
  | nil => intro _; simp
  | cons x xs ih =>
    intro h
    rw [List.map_cons, List.sum_cons, h x (List.mem_cons_self x xs),
      ih (fun y hy => h y (List.mem_cons_of_mem x hy)), List.length_cons]
    push_cast
    ring

/-- One iteration of the payout loop over equal stakes: the queried
player's entry reaches zero together with everyone else's, so the loop
returns the single-layer settlement. -/
theorem payoutLoop_replicate_step (rank0 : ℕ → Option ℕ) (pidx fuel L c : ℕ) (v : ℤ)
    (rp : ℕ) (hpidx : pidx < L) (hc0 : 0 < c) (hcU : c ≤ U32_MAX)
    (hrp : rank0 pidx = some rp) :
    payoutLoop rank0 pidx (fuel + 1) (List.replicate L c) v
      = if rp = (winScanFrom rank0 L).1 then
          (if (winScanFrom rank0 L).2 = 0 then none
           else some (v + Int.tdiv (i32ofU32 c * ((L : ℤ) - ((winScanFrom rank0 L).2 : ℤ)))
              ((winScanFrom rank0 L).2 : ℤ)))
        else some (v - i32ofU32 c) := by
  have hL1 : 1 ≤ L := by omega
  simp only [payoutLoop, any_replicate_zero c (by omega) L, Bool.false_eq_true, if_false,
    List.length_replicate, minSpent_replicate L c hL1 hcU, hrp]
  rw [shrinkSpent_replicate c pidx L 0 (by omega) (by omega)]
  split_ifs <;> rfl

/-- The single-layer settlement, with the winner's share written as the
source's truncating `u32` division. -/
theorem payoutLoop_single_layer (rank0 : ℕ → Option ℕ) (pidx L c rp : ℕ)
    (hpidx : pidx < L) (hc0 : 0 < c) (hc31 : c < 2 ^ 31)
    (hrp : rank0 pidx = some rp)
    (hnw : 1 ≤ (winScanFrom rank0 L).2) (hnwL : (winScanFrom rank0 L).2 ≤ L) :
    payoutLoop rank0 pidx (L + 2) (List.replicate L c) 0
      = some (if rp = (winScanFrom rank0 L).1
              then ((c * (L - (winScanFrom rank0 L).2) / (winScanFrom rank0 L).2 : ℕ) : ℤ)
              else -(c : ℤ)) := by
  have hcU : c ≤ U32_MAX := by
    unfold U32_MAX
    have h31 : (2 : ℕ) ^ 31 ≤ 2 ^ 32 - 1 := by norm_num
    omega
  rw [show L + 2 = (L + 1) + 1 from rfl,
    payoutLoop_replicate_step rank0 pidx (L + 1) L c 0 rp hpidx hc0 hcU hrp]
  by_cases hwin : rp = (winScanFrom rank0 L).1
  · rw [if_pos hwin, if_pos hwin, if_neg (by omega)]
    congr 1
    rw [zero_add, i32ofU32_small c hc31, ← Nat.cast_sub hnwL, ← Nat.cast_mul]
    exact (Int.ofNat_tdiv _ _).symm
  · rw [if_neg hwin, if_neg hwin, i32ofU32_small c hc31, zero_sub]

/-- The payout loop's rank scan over the gathered positions computes the
best rank class among non-folded contesting players and its multiplicity;
stated for states where the non-folded gathered seats are exactly the
non-folded seats. -/
theorem winScan_eval (gi : GameInfo) (rankOf : ℕ → ℕ) (s : GameState)
    (hflt : (gatherPlayers gi s).filter (fun i => !s.playersFolded i) = foldedFree gi s) :
    winScanFrom (gatherRank gi rankOf s) (gatherPlayers gi s).length
      = (bestRank gi rankOf s, winCount gi rankOf s) := by
  rw [winScanFrom_eq_foldl]
  have h1 : (List.range (gatherPlayers gi s).length).map (gatherRank gi rankOf s)
      = (gatherPlayers gi s).map
          (fun i => if s.playersFolded i then none else some (rankOf i)) := by
    unfold gatherRank
    exact range_map_get (gatherPlayers gi s)
      (fun i => if s.playersFolded i then none else some (rankOf i))
  rw [h1, foldl_wstep_filterMap,
    filterMap_if_map (fun i => s.playersFolded i) rankOf (gatherPlayers gi s), hflt]
  exact foldl_pstep_max_count _

/-- Evaluation of `get_payout` for a non-folded player of a finished
single-layer state: one loop iteration settles the whole pot. -/
theorem payout_single_layer_eval (gi : GameInfo) (rankOf : ℕ → ℕ) (s : GameState) (c : ℕ)
    (hfin : s.finished = true) (hc0 : 0 < c) (hc31 : c < 2 ^ 31)
    (hfold : ∀ p, p < gi.numPlayers → s.playersFolded p = true →
      s.spent p = 0 ∨ s.spent p = c)
    (hnofold : ∀ p, p < gi.numPlayers → s.playersFolded p = false → s.spent p = c)
    (hm2 : 2 ≤ (foldedFree gi s).length)
    (p : ℕ) (hp : p < gi.numPlayers) (hpf : s.playersFolded p = false) :
    get_payout gi rankOf s p
      = some (if rankOf p = bestRank gi rankOf s
              then ((c * ((gatherPlayers gi s).length - winCount gi rankOf s)
                      / winCount gi rankOf s : ℕ) : ℤ)
              else -(c : ℤ)) := by
  have hflt : (gatherPlayers gi s).filter (fun i => !s.playersFolded i) = foldedFree gi s := by
    unfold gatherPlayers foldedFree
    rw [List.filter_filter]
    refine List.filter_congr ?_
    intro a ha
    have halt : a < gi.numPlayers := List.mem_range.mp ha
    by_cases hfa : s.playersFolded a
    · simp [hfa]
    · have hsa : s.spent a = c := hnofold a halt (by simpa using hfa)
      simp [hfa, hsa]
      omega
  have hmL : (foldedFree gi s).length ≤ (gatherPlayers gi s).length := by
    rw [← hflt]
    exact List.length_filter_le _ _
  have hL2 : 2 ≤ (gatherPlayers gi s).length := le_trans hm2 hmL
  have hsp : s.spent p = c := hnofold p hp hpf
  have hpmem : p ∈ gatherPlayers gi s := by
    unfold gatherPlayers
    refine List.mem_filter.mpr ⟨List.mem_range.mpr hp, ?_⟩
    simp [hsp]
    omega
  have hnf1 : ¬ (num_folded gi s + 1 = gi.numPlayers) := by
    have hpart : (List.range gi.numPlayers).length
        = ((List.range gi.numPlayers).filter fun q => s.playersFolded q).length
          + ((List.range gi.numPlayers).filter fun q => !s.playersFolded q).length :=
      List.length_eq_length_filter_add _
    have hcnt : num_folded gi s
        = ((List.range gi.numPlayers).filter fun q => s.playersFolded q).length :=
      countFolded_eq_filter s gi.numPlayers
    have hlen : (List.range gi.numPlayers).length = gi.numPlayers := List.length_range _
    have hff : (foldedFree gi s).length
        = ((List.range gi.numPlayers).filter fun q => !s.playersFolded q).length := rfl
    omega
  have hrepl : (gatherPlayers gi s).map s.spent
      = List.replicate (gatherPlayers gi s).length c := by
    refine List.eq_replicate_iff.mpr ⟨by simp, ?_⟩
    intro b hb
    obtain ⟨i, hi, rfl⟩ := List.mem_map.mp hb
    have := List.mem_filter.mp hi
    have hin : i < gi.numPlayers := List.mem_range.mp this.1
    have hiz : s.spent i ≠ 0 := by simpa using this.2
    by_cases hfi : s.playersFolded i
    · rcases hfold i hin hfi with h0 | hc
      · exact absurd h0 hiz
      · exact hc
    · exact hnofold i hin (by simpa using hfi)
  obtain ⟨pidx, hpidxlt, hidx, hget⟩ := gatherIdxFrom_mem (gatherPlayers gi s) p 0 hpmem
  rw [Nat.zero_add] at hidx
  have hr0 : gatherRank gi rankOf s pidx = some (rankOf p) := by
    unfold gatherRank
    rw [hget]
    show (if s.playersFolded p then none else some (rankOf p)) = some (rankOf p)
    simp [hpf]
  have hWS := winScan_eval gi rankOf s hflt
  have hnw : 1 ≤ (winScanFrom (gatherRank gi rankOf s) (gatherPlayers gi s).length).2 := by
    rw [hWS]
    have hne : (foldedFree gi s).map rankOf ≠ [] := by
      intro hnil
      have hlen0 : ((foldedFree gi s).map rankOf).length = 0 := by
        rw [hnil]
        rfl
      rw [List.length_map] at hlen0
      omega
    have hmem := foldl_max_mem ((foldedFree gi s).map rankOf) hne
    have := List.count_pos_iff.mpr hmem
    unfold winCount bestRank
    omega
  have hnwL : (winScanFrom (gatherRank gi rankOf s) (gatherPlayers gi s).length).2
      ≤ (gatherPlayers gi s).length := by
    rw [hWS]
    have h1 : winCount gi rankOf s ≤ ((foldedFree gi s).map rankOf).length :=
      List.count_le_length _ _
    simp only [List.length_map] at h1
    omega
  rw [get_payout, if_neg (by simp [hpf]), if_neg (by simp [hfin]), if_neg hnf1,
    if_neg (by omega), hidx]
  show payoutLoop (gatherRank gi rankOf s) pidx ((gatherPlayers gi s).length + 2)
      ((gatherPlayers gi s).map s.spent) 0
    = some (if rankOf p = bestRank gi rankOf s
            then ((c * ((gatherPlayers gi s).length - winCount gi rankOf s)
                    / winCount gi rankOf s : ℕ) : ℤ)
            else -(c : ℤ))
  rw [hrepl, payoutLoop_single_layer (gatherRank gi rankOf s) pidx
    (gatherPlayers gi s).length c (rankOf p) hpidxlt hc0 hc31 hr0 hnw hnwL, hWS]

/-- C1 counterexample: a finished three-player hand, equal spends
`[1, 1, 1]`, seats 0 and 1 tied for best — each winner's share
`1 * (3 - 2) / 2` truncates to zero, so the payouts sum to `-1`, not
zero. -/
theorem C1_counterexample :
    get_payout gi3 rankOf1 cs1 0 = some 0 ∧
    get_payout gi3 rankOf1 cs1 1 = some 0 ∧
    get_payout gi3 rankOf1 cs1 2 = some (-1) ∧
    ((List.range 3).map fun p => (get_payout gi3 rankOf1 cs1 p).getD 0).sum ≠ 0 := by
  refine ⟨by decide, by decide, by decide, by decide⟩

/-- C1 (amended): chip conservation holds only up to the integer-division
truncation the layer split performs.  For a finished state in which every
contesting player committed the same amount `c` (folded players may also
have committed nothing) and at least two players have not folded, every
payout is defined and the payouts sum to the negation of the remainder of
dividing the winners' layer winnings by the number of winners — zero
exactly when that division is exact. -/
theorem C1_single_layer_sum (gi : GameInfo) (rankOf : ℕ → ℕ) (s : GameState) (c : ℕ)
    (hfin : s.finished = true) (hc0 : 0 < c) (hc31 : c < 2 ^ 31)
    (hfold : ∀ p, p < gi.numPlayers → s.playersFolded p = true →
      s.spent p = 0 ∨ s.spent p = c)
    (hnofold : ∀ p, p < gi.numPlayers → s.playersFolded p = false → s.spent p = c)
    (hm2 : 2 ≤ (foldedFree gi s).length) :
    (∀ p, p < gi.numPlayers → (get_payout gi rankOf s p).isSome = true) ∧
    ((List.range gi.numPlayers).map fun p => (get_payout gi rankOf s p).getD 0).sum
      = -(((c * ((gatherPlayers gi s).length - winCount gi rankOf s))
            % winCount gi rankOf s : ℕ) : ℤ) := by
  have hevalF : ∀ p, s.playersFolded p = true →
      get_payout gi rankOf s p = some (-(s.spent p : ℤ)) := by
    intro p hpf
    simp [get_payout, hpf]
  have hevalN := payout_single_layer_eval gi rankOf s c hfin hc0 hc31 hfold hnofold hm2
  have hflt : (gatherPlayers gi s).filter (fun i => !s.playersFolded i) = foldedFree gi s := by
    unfold gatherPlayers foldedFree
    rw [List.filter_filter]
    refine List.filter_congr ?_
    intro a ha
    have halt : a < gi.numPlayers := List.mem_range.mp ha
    by_cases hfa : s.playersFolded a
    · simp [hfa]
    · have hsa : s.spent a = c := hnofold a halt (by simpa using hfa)
      simp [hfa, hsa]
      omega
  have hmL : (foldedFree gi s).length ≤ (gatherPlayers gi s).length := by
    rw [← hflt]
    exact List.length_filter_le _ _
  refine ⟨?_, ?_⟩
  · intro p hp
    by_cases hpf : s.playersFolded p
    · rw [hevalF p hpf]
      rfl
    · rw [hevalN p hp (by simpa using hpf)]
      rfl
  · -- name the pieces of the settlement
    have hsplit1 := sum_map_split (fun p => s.playersFolded p)
      (fun p => (get_payout gi rankOf s p).getD 0) (List.range gi.numPlayers)
    have hffree : ((List.range gi.numPlayers).filter
        fun x => !(fun p => s.playersFolded p) x) = foldedFree gi s := rfl
    rw [hffree] at hsplit1
    -- folded seats: split by whether they contested
    have hsplit2 := sum_map_split (fun p => decide (s.spent p ≠ 0))
      (fun p => (get_payout gi rankOf s p).getD 0)
      ((List.range gi.numPlayers).filter fun p => s.playersFolded p)
    -- non-folded seats: split by holding the best rank class
    have hsplit3 := sum_map_split (fun p => decide (rankOf p = bestRank gi rankOf s))
      (fun p => (get_payout gi rankOf s p).getD 0) (foldedFree gi s)
    -- value of each group
    have hvalFC : ((((List.range gi.numPlayers).filter fun p => s.playersFolded p).filter
          fun p => decide (s.spent p ≠ 0)).map
            fun p => (get_payout gi rankOf s p).getD 0).sum
        = ((((List.range gi.numPlayers).filter fun p => s.playersFolded p).filter
            fun p => decide (s.spent p ≠ 0)).length : ℤ) * (-(c : ℤ)) := by
      refine sum_map_const _ _ _ ?_
      intro x hx
      obtain ⟨hx1, hx2⟩ := List.mem_filter.mp hx
      obtain ⟨hx0, hxf⟩ := List.mem_filter.mp hx1
      have hxlt : x < gi.numPlayers := List.mem_range.mp hx0
      have hxs : s.spent x = c := by
        rcases hfold x hxlt hxf with h0 | hc'
        · exact absurd h0 (by simpa using hx2)
        · exact hc'
      rw [hevalF x hxf]
      simp [hxs]
    have hvalFZ : ((((List.range gi.numPlayers).filter fun p => s.playersFolded p).filter
          fun x => !(fun p => decide (s.spent p ≠ 0)) x).map
            fun p => (get_payout gi rankOf s p).getD 0).sum
        = ((((List.range gi.numPlayers).filter fun p => s.playersFolded p).filter
            fun x => !(fun p => decide (s.spent p ≠ 0)) x).length : ℤ) * 0 := by
      refine sum_map_const _ _ _ ?_
      intro x hx
      obtain ⟨hx1, hx2⟩ := List.mem_filter.mp hx
      obtain ⟨-, hxf⟩ := List.mem_filter.mp hx1
      have hxs : s.spent x = 0 := by simpa using hx2
      rw [hevalF x hxf]
      simp [hxs]
    have hvalW : (((foldedFree gi s).filter
          fun p => decide (rankOf p = bestRank gi rankOf s)).map
            fun p => (get_payout gi rankOf s p).getD 0).sum
        = (((foldedFree gi s).filter
            fun p => decide (rankOf p = bestRank gi rankOf s)).length : ℤ)
          * ((c * ((gatherPlayers gi s).length - winCount gi rankOf s)
              / winCount gi rankOf s : ℕ) : ℤ) := by
      refine sum_map_const _ _ _ ?_
      intro x hx
      obtain ⟨hx1, hx2⟩ := List.mem_filter.mp hx
      obtain ⟨hx0, hxnf⟩ := List.mem_filter.mp hx1
      have hxlt : x < gi.numPlayers := List.mem_range.mp hx0
      rw [hevalN x hxlt (by simpa using hxnf)]
      rw [if_pos (by simpa using hx2)]
      rfl
    have hvalL : (((foldedFree gi s).filter
          fun x => !(fun p => decide (rankOf p = bestRank gi rankOf s)) x).map
            fun p => (get_payout gi rankOf s p).getD 0).sum
        = (((foldedFree gi s).filter
            fun x => !(fun p => decide (rankOf p = bestRank gi rankOf s)) x).length : ℤ)
          * (-(c : ℤ)) := by
      refine sum_map_const _ _ _ ?_
      intro x hx
      obtain ⟨hx1, hx2⟩ := List.mem_filter.mp hx
      obtain ⟨hx0, hxnf⟩ := List.mem_filter.mp hx1
      have hxlt : x < gi.numPlayers := List.mem_range.mp hx0
      rw [hevalN x hxlt (by simpa using hxnf)]
      rw [if_neg (by simpa using hx2)]
      rfl
    -- lengths of the groups
    have hflc : (((List.range gi.numPlayers).filter fun p => s.playersFolded p).filter
          fun p => decide (s.spent p ≠ 0))
        = (gatherPlayers gi s).filter fun i => s.playersFolded i := by
      unfold gatherPlayers
      rw [List.filter_filter, List.filter_filter]
      refine List.filter_congr ?_
      intro a _
      exact Bool.and_comm _ _
    have hgpart : (gatherPlayers gi s).length
        = ((gatherPlayers gi s).filter fun i => !s.playersFolded i).length
          + ((gatherPlayers gi s).filter
              fun x => !(fun i => !s.playersFolded i) x).length :=
      List.length_eq_length_filter_add _
    have hgnot : ((gatherPlayers gi s).filter fun x => !(fun i => !s.playersFolded i) x)
        = (gatherPlayers gi s).filter fun i => s.playersFolded i := by
      refine List.filter_congr ?_
      intro a _
      exact Bool.not_not _
    have hlenFC : (((List.range gi.numPlayers).filter fun p => s.playersFolded p).filter
          fun p => decide (s.spent p ≠ 0)).length
        = (gatherPlayers gi s).length - (foldedFree gi s).length := by
      rw [hflc]
      rw [hflt, hgnot] at hgpart
      omega
    have hWlen : ((foldedFree gi s).filter
          fun p => decide (rankOf p = bestRank gi rankOf s)).length
        = winCount gi rankOf s := by
      unfold winCount
      rw [show List.count (bestRank gi rankOf s) ((foldedFree gi s).map rankOf)
          = List.countP (fun x => x == bestRank gi rankOf s)
              ((foldedFree gi s).map rankOf) from rfl]
      rw [List.countP_map, List.countP_eq_length_filter]
      refine congrArg List.length (List.filter_congr ?_).symm
      intro a _
      by_cases h : rankOf a = bestRank gi rankOf s
      · simp [h]
      · simp [h]
    have hfpart : (foldedFree gi s).length
        = ((foldedFree gi s).filter
              fun p => decide (rankOf p = bestRank gi rankOf s)).length
          + ((foldedFree gi s).filter
              fun x => !(fun p => decide (rankOf p = bestRank gi rankOf s)) x).length :=
      List.length_eq_length_filter_add _
    have hWm : winCount gi rankOf s ≤ (foldedFree gi s).length := by
      rw [← hWlen]
      omega
    have hLoseLen : ((foldedFree gi s).filter
          fun x => !(fun p => decide (rankOf p = bestRank gi rankOf s)) x).length
        = (foldedFree gi s).length - winCount gi rankOf s := by
      rw [← hWlen]
      omega
    -- arithmetic of the settlement
    rw [hsplit1, hsplit2, hsplit3, hvalFC, hvalFZ, hvalW, hvalL, hlenFC, hWlen, hLoseLen]
    have hdm : winCount gi rankOf s
          * (c * ((gatherPlayers gi s).length - winCount gi rankOf s)
              / winCount gi rankOf s)
        + (c * ((gatherPlayers gi s).length - winCount gi rankOf s))
            % winCount gi rankOf s
        = c * ((gatherPlayers gi s).length - winCount gi rankOf s) :=
      Nat.div_add_mod _ _
    have hXeq : c * ((gatherPlayers gi s).length - winCount gi rankOf s)
        = c * ((gatherPlayers gi s).length - (foldedFree gi s).length)
          + c * ((foldedFree gi s).length - winCount gi rankOf s) := by
      rw [show (gatherPlayers gi s).length - winCount gi rankOf s
          = ((gatherPlayers gi s).length - (foldedFree gi s).length)
            + ((foldedFree gi s).length - winCount gi rankOf s) from by omega,
        Nat.mul_add]
    have k1 : ((winCount gi rankOf s : ℕ) : ℤ)
          * ((c * ((gatherPlayers gi s).length - winCount gi rankOf s)
              / winCount gi rankOf s : ℕ) : ℤ)
        + (((c * ((gatherPlayers gi s).length - winCount gi rankOf s))
              % winCount gi rankOf s : ℕ) : ℤ)
        = ((c * ((gatherPlayers gi s).length - winCount gi rankOf s) : ℕ) : ℤ) := by
      exact_mod_cast congrArg (fun t : ℕ => (t : ℤ)) hdm
    have k2 : ((c * ((gatherPlayers gi s).length - winCount gi rankOf s) : ℕ) : ℤ)
        = ((c * ((gatherPlayers gi s).length - (foldedFree gi s).length) : ℕ) : ℤ)
          + ((c * ((foldedFree gi s).length - winCount gi rankOf s) : ℕ) : ℤ) := by
      exact_mod_cast congrArg (fun t : ℕ => (t : ℤ)) hXeq
    have c1 : (((gatherPlayers gi s).length - (foldedFree gi s).length : ℕ) : ℤ)
          * (-(c : ℤ))
        = -((c * ((gatherPlayers gi s).length - (foldedFree gi s).length) : ℕ) : ℤ) := by
      push_cast
      ring
    have c2 : (((foldedFree gi s).length - winCount gi rankOf s : ℕ) : ℤ) * (-(c : ℤ))
        = -((c * ((foldedFree gi s).length - winCount gi rankOf s) : ℕ) : ℤ) := by
      push_cast
      ring
    rw [c1, c2]
    linarith [k1, k2]

/-- Witness for C1: the theorem applies to the equal-stakes tie `cs1`,
where the remainder formula gives `-1`. -/
theorem C1_witness :
    (get_payout gi3 rankOf1 cs1 0).isSome = true ∧
    ((List.range gi3.numPlayers).map fun p => (get_payout gi3 rankOf1 cs1 p).getD 0).sum
      = -(((1 * ((gatherPlayers gi3 cs1).length - winCount gi3 rankOf1 cs1))
            % winCount gi3 rankOf1 cs1 : ℕ) : ℤ) := by
  have h := C1_single_layer_sum gi3 rankOf1 cs1 1 rfl (by decide) (by decide)
    (by decide) (by decide) (by decide)
  exact ⟨h.1 0 (by decide), h.2⟩

/-- Witness for C5: the heads-up hand advances from round 0 to round 1
after both players call. -/
theorem C5_witness : hu2.round = hu1.round + 1 ∧ hu2.finished = false := by
  have h :=
    C5_round_advance gi2 hu1 .call 0 hu2 (recordAndChips gi2 hu1 .call 0) rfl (by decide) rfl
      (by decide) (by decide)
  obtain ⟨hadv, -, -⟩ := h
  have h2 := hadv (by decide) (by decide) (by decide)
  exact ⟨h2.1, h2.2.1⟩

/-- Recording an action never changes the stacks. -/
theorem recordAndChips_stack (gi : GameInfo) (s : GameState) (a : Action) (np : ℕ) :
    (recordAndChips gi s a np).stackPlayer = s.stackPlayer := by
  cases a <;> rfl

/-- A fold moves no chips. -/
theorem recordAndChips_spent_fold (gi : GameInfo) (s : GameState) (np p : ℕ) :
    (recordAndChips gi s .fold np).spent p = s.spent p := rfl

/-- A call sets the caller's spend to its stack-capped call target. -/
theorem recordAndChips_spent_call (gi : GameInfo) (s : GameState) (np p : ℕ) :
    (recordAndChips gi s .call np).spent p
      = if p = s.activePlayer then
          (if s.maxSpent > s.stackPlayer s.activePlayer then s.stackPlayer s.activePlayer
           else s.maxSpent)
        else s.spent p := rfl

/-- A no-limit raise sets the raiser's spend to the raise-to amount. -/
theorem recordAndChips_spent_raise_nl (gi : GameInfo) (s : GameState) (rr np p : ℕ)
    (hbt : gi.bettingType = .NoLimit) :
    (recordAndChips gi s (.raise rr) np).spent p
      = if p = s.activePlayer then rr else s.spent p := by
  unfold recordAndChips
  rw [hbt]

/-- A limit raise sets the raiser's spend to the stack-capped increment of
`max_spent`. -/
theorem recordAndChips_spent_raise_l (gi : GameInfo) (s : GameState) (rr np p : ℕ)
    (hbt : gi.bettingType = .Limit) :
    (recordAndChips gi s (.raise rr) np).spent p
      = if p = s.activePlayer then
          (if s.maxSpent + gi.raiseSizes s.round > s.stackPlayer s.activePlayer
           then s.stackPlayer s.activePlayer
           else s.maxSpent + gi.raiseSizes s.round)
        else s.spent p := by
  unfold recordAndChips
  rw [hbt]

/-- The second component of `raise_range` is zero or the active player's
stack. -/
theorem raise_range_snd (gi : GameInfo) (s : GameState) :
    (raise_range gi s).2 = 0 ∨ (raise_range gi s).2 = s.stackPlayer s.activePlayer := by
  unfold raise_range
  cases gi.bettingType <;> split_ifs <;> simp

/-- The terminal/round-advance phase never changes spends or stacks. -/
theorem advanceState_fields (gi : GameInfo) (mid s' : GameState)
    (h : advanceState gi mid = some s') :
    s'.spent = mid.spent ∧ s'.stackPlayer = mid.stackPlayer := by
  unfold advanceState at h
  split_ifs at h with h1 h2 h3 h4
  · simp only [Option.some.injEq] at h
    rw [← h]
    exact ⟨rfl, rfl⟩
  · cases hsk : skipFrom gi mid (gi.numPlayers + 1) (gi.firstPlayer (mid.round + 1)) with
    | none =>
      rw [hsk] at h
      simp at h
    | some ap =>
      rw [hsk] at h
      simp only [Option.some.injEq] at h
      rw [← h]
      exact ⟨rfl, rfl⟩
  · simp only [Option.some.injEq] at h
    rw [← h]
    exact ⟨rfl, rfl⟩
  · simp only [Option.some.injEq] at h
    rw [← h]
    exact ⟨rfl, rfl⟩
  · simp only [Option.some.injEq] at h
    rw [← h]
    exact ⟨rfl, rfl⟩

/-- C9: with blinds within the starting stacks, `spent[p] ≤ stack[p]`
holds for every seated player of the fresh state and is preserved by
every accepted transition, whatever the action. -/
theorem C9_stack_bound (gi : GameInfo) (handId : ℕ)
    (hblind : ∀ p, p < gi.numPlayers → gi.blinds p ≤ gi.startingStacks p) :
    (∀ p, p < gi.numPlayers →
      (GameState.new gi handId).spent p ≤ (GameState.new gi handId).stackPlayer p) ∧
    (∀ (s : GameState) (a : Action) (s' : GameState),
      (∀ p, p < gi.numPlayers → s.spent p ≤ s.stackPlayer p) →
      apply_action_no_cards gi s a = some (Except.ok s') →
      ∀ p, p < gi.numPlayers → s'.spent p ≤ s'.stackPlayer p) := by
  constructor
  · intro p hp
    simp only [GameState.new, if_pos hp]
    exact hblind p hp
  · intro s a s' hbound happ p hp
    obtain ⟨hf, -, hv, np, -, hadv⟩ := apply_ok_elim gi s a s' happ
    obtain ⟨hsp, hst⟩ := advanceState_fields gi _ s' hadv
    rw [hsp, hst, recordAndChips_stack]
    cases a with
    | fold =>
      rw [recordAndChips_spent_fold]
      exact hbound p hp
    | call =>
      rw [recordAndChips_spent_call]
      by_cases hpe : p = s.activePlayer
      · rw [if_pos hpe, hpe]
        split_ifs with h1
        · exact le_refl _
        · exact Nat.le_of_not_lt h1
      · rw [if_neg hpe]
        exact hbound p hp
    | raise rr =>
      cases hbt : gi.bettingType with
      | Limit =>
        rw [recordAndChips_spent_raise_l gi s rr np p hbt]
        by_cases hpe : p = s.activePlayer
        · rw [if_pos hpe, hpe]
          split_ifs with h1
          · exact le_refl _
          · exact Nat.le_of_not_lt h1
        · rw [if_neg hpe]
          exact hbound p hp
      | NoLimit =>
        rw [recordAndChips_spent_raise_nl gi s rr np p hbt]
        by_cases hpe : p = s.activePlayer
        · rw [if_pos hpe, hpe]
          unfold is_valid_action at hv
          rw [hf] at hv
          simp only [Bool.false_eq_true, if_false] at hv
          by_cases hcap : num_raises s ≥ gi.maxRaises s.round
          · rw [if_pos hcap] at hv
            simp at hv
          · rw [if_neg hcap, hbt] at hv
            have hv' : (raise_range gi s).1 ≤ rr ∧ rr ≤ (raise_range gi s).2 := by
              simpa using hv
            rcases raise_range_snd gi s with h0 | hstk
            · have hrr : rr = 0 := by
                have := hv'.2
                omega
              rw [hrr]
              exact Nat.zero_le _
            · rw [← hstk]
              exact hv'.2
        · rw [if_neg hpe]
          exact hbound p hp

/-- Witness for C9: blinds fit the stacks in `gi2`, and the bound holds
after the opening call. -/
theorem C9_witness :
    hu1.spent 0 ≤ hu1.stackPlayer 0 ∧ hu1.spent 1 ≤ hu1.stackPlayer 1 := by
  have h := C9_stack_bound gi2 0 (by decide)
  have hpres := h.2 hu0 .call hu1 h.1 rfl
  exact ⟨hpres 0 (by decide), hpres 1 (by decide)⟩

/-- Witness for C3: the fresh heads-up hand accepts a call. -/
theorem C3_witness :
    (∃ s', apply_action_no_cards gi2 hu0 .call = some (Except.ok s')) ↔
      (hu0.finished = false ∧ hu0.numActions hu0.round < MAX_NUM_ACTIONS ∧
        is_valid_action gi2 hu0 .call = true) :=
  (C3_legality_closure gi2 hu0 .call (by decide) (by decide) (by decide) (by decide)).1

/-- C6: a folded player's payout is `-spent[player]` regardless of the
board cards, hole cards, evaluator (all abstracted by `rankOf`), the other
players' states and the finished flag. -/
theorem C6_folded_payout (gi : GameInfo) (rankOf : ℕ → ℕ) (s : GameState) (p : ℕ)
    (hp : s.playersFolded p = true) :
    get_payout gi rankOf s p = some (-(s.spent p : ℤ)) := by
  simp [get_payout, hp]

/-- Witness for C6: the folded seat 0 of `nf1` gets back exactly `-7`. -/
theorem C6_witness :
    nf1.playersFolded 0 = true ∧ get_payout gi3 rankOf2 nf1 0 = some (-(7 : ℤ)) :=
  ⟨rfl, C6_folded_payout gi3 rankOf2 nf1 0 rfl⟩

/-- C7 counterexample: a non-finished state on which `get_payout` returns
a value instead of aborting — the folded-player branch of the source runs
before the finished check, so querying a folded player never panics. -/
theorem C7_counterexample :
    nf1.finished = false ∧ get_payout gi3 rankOf2 nf1 0 = some (-(7 : ℤ)) := by
  decide

/-- C7 (amended): payout on a non-finished state aborts whenever the
queried player has not folded, and `current_player` on a finished state
returns an error instead of a player id. -/
theorem C7_precondition_aborts :
    (∀ (gi : GameInfo) (rankOf : ℕ → ℕ) (s : GameState) (p : ℕ),
        s.playersFolded p = false → s.finished = false →
        get_payout gi rankOf s p = none) ∧
    (∀ s : GameState, s.finished = true →
        current_player s = Except.error "state is finished so there is no active player") := by
  constructor
  · intro gi rankOf s p hp hf
    simp [get_payout, hp, hf]
  · intro s hf
    simp [current_player, hf]

/-- Witness for C7 at concrete states: the fresh heads-up hand (payout
aborts) and the finished showdown `ps1` (`current_player` errs). -/
theorem C7_witness :
    get_payout gi2 rankOf2 hu0 0 = none ∧
    current_player ps1 = Except.error "state is finished so there is no active player" :=
  ⟨C7_precondition_aborts.1 gi2 rankOf2 hu0 0 rfl rfl, C7_precondition_aborts.2 ps1 rfl⟩

/-- C8: on a non-finished state, `Fold` is invalid exactly when the active
player's spend equals their stack. -/
theorem C8_fold_legality (gi : GameInfo) (s : GameState) (hf : s.finished = false) :
    is_valid_action gi s .fold = false ↔
      s.spent s.activePlayer = s.stackPlayer s.activePlayer := by
  simp [is_valid_action, hf]

/-- Witness for C8: the fully committed active seat of `allin2` cannot
fold. -/
theorem C8_witness :
    allin2.finished = false ∧
      (is_valid_action gi2 allin2 .fold = false ↔
        allin2.spent allin2.activePlayer = allin2.stackPlayer allin2.activePlayer) :=
  ⟨rfl, C8_fold_legality gi2 allin2 rfl⟩

/-- C4 counterexample: in `s4` the round has 31 of 32 logged actions, so
appending one more action would still fit, no raise cap is hit, two
players can act and the stack is not below the minimum raise-to — yet
`raise_range` collapses to `(0, 0)`, because the source requires room for
`num_players` further actions, not one. -/
theorem C4_counterexample :
    s4.finished = false ∧ gi2.bettingType = BettingType.NoLimit ∧
    num_raises s4 < gi2.maxRaises s4.round ∧
    1 < num_active_players gi2 s4 ∧
    s4.numActions s4.round + 1 ≤ MAX_NUM_ACTIONS ∧
    ¬ s4.stackPlayer s4.activePlayer < s4.minNoLimitRaiseTo ∧
    raise_range gi2 s4 = (0, 0) ∧
    (s4.minNoLimitRaiseTo, s4.stackPlayer s4.activePlayer) = (4, 100) := by
  decide

/-- C4 (amended): full characterisation of `raise_range` on no-limit,
non-finished states, with the action-log condition as the source
implements it: the range collapses to `(0, 0)` when the raise cap is
reached, when the action count plus the number of players exceeds the
per-round capacity (room is reserved for every player to respond), or
when at most one player can act; otherwise the range is
`(min_no_limit_raise_to, stack)`, except that a stack below the minimum
yields `(0, 0)` if `max_spent` already reaches the stack and otherwise
`(stack, stack)`. -/
theorem C4_raise_range_rule (gi : GameInfo) (s : GameState)
    (hf : s.finished = false) (hb : gi.bettingType = .NoLimit) :
    raise_range gi s =
      if gi.maxRaises s.round ≤ num_raises s ∨
          MAX_NUM_ACTIONS < s.numActions s.round + gi.numPlayers ∨
          num_active_players gi s ≤ 1 then (0, 0)
      else if s.stackPlayer s.activePlayer < s.minNoLimitRaiseTo then
        if s.stackPlayer s.activePlayer ≤ s.maxSpent then (0, 0)
        else (s.stackPlayer s.activePlayer, s.stackPlayer s.activePlayer)
      else (s.minNoLimitRaiseTo, s.stackPlayer s.activePlayer) := by
  simp only [raise_range, hf, hb, Bool.false_eq_true, if_false, ge_iff_le, gt_iff_lt]
  split_ifs <;> first | rfl | omega

/-- Witness for C4: on the empty-log variant `s4b` the characterisation
gives the full range `(4, 100)`. -/
theorem C4_witness :
    s4b.finished = false ∧ raise_range gi2 s4b = (4, 100) :=
  ⟨rfl, by rw [C4_raise_range_rule gi2 s4b rfl rfl]; decide⟩

/-- C2: evaluating the source payout on the `[5, 20, 20]` side-pot
scenario.  The best-ranked short-stack seat 0 nets exactly `+10` (the
5-chip layer times three, minus its own 5), not the 45-chip pot — but for
seat 1 the source returns `-20` while the algorithm described by the
claim (and by the spec, cf. `specSidePot`) awards it the 15-chip excess
layer for a net of `+10`: the survivor compaction copies only the spent
array, leaving stale ranks and a stale queried index. -/
theorem C2_code_vs_intended :
    get_payout gi3 rankOf2 ps1 0 = some 10 ∧
    get_payout gi3 rankOf2 ps1 1 = some (-20) ∧
    specSidePot 5 [(5, some 3, false), (20, some 2, true), (20, some 1, false)] 0 = some 10 := by
  exact ⟨by decide, by decide, by decide⟩

/-- Helper for C10: once the payout loop's contesting list is empty, it
rewrites `value` forever (the `u32::MAX` layer is reinterpreted as `-1`)
and never returns. -/
theorem payoutLoop_ps1_nil (f : ℕ) :
    ∀ v, payoutLoop (gatherRank gi3 rankOf2 ps1) 2 f [] v = none := by
  induction f with
  | zero => intro v; rfl
  | succ f ih =>
    intro v
    have h : payoutLoop (gatherRank gi3 rankOf2 ps1) 2 (f + 1) [] v
        = payoutLoop (gatherRank gi3 rankOf2 ps1) 2 f [] (v - i32ofU32 U32_MAX) := rfl
    rw [h]
    exact ih _

/-- C10: the side-pot loop of `get_payout` need not terminate with a
value.  On the finished showdown `ps1` (spends `[5, 20, 20]`, ranks
`3 > 2 > 1` by seat) queried at seat 2, the queried position is dropped
from the compacted spent array without ever matching `player_idx`, the
list empties, and the loop spins forever: no fuel returns a value, and
`get_payout` yields none. -/
theorem C10_payout_nontermination :
    (∀ fuel v, payoutLoop (gatherRank gi3 rankOf2 ps1) 2 fuel [5, 20, 20] v = none) ∧
    get_payout gi3 rankOf2 ps1 2 = none := by
  constructor
  · intro fuel v
    cases fuel with
    | zero => rfl
    | succ f =>
      have h1 : payoutLoop (gatherRank gi3 rankOf2 ps1) 2 (f + 1) [5, 20, 20] v
          = payoutLoop (gatherRank gi3 rankOf2 ps1) 2 f [15, 15] (v - 5) := rfl
      rw [h1]
      cases f with
      | zero => rfl
      | succ f2 =>
        have h2 : payoutLoop (gatherRank gi3 rankOf2 ps1) 2 (f2 + 1) [15, 15] (v - 5)
            = payoutLoop (gatherRank gi3 rankOf2 ps1) 2 f2 [] (v - 5 - 15) := rfl
        rw [h2]
        exact payoutLoop_ps1_nil f2 _
  · decide

end Ungar
